import Mathlib

/-
Verification of the terminal game engine's entity-state core.

The development shallowly embeds the engine's data model and the operations of
`State` (the entity store), `EntityState` (per-record geometry predicates),
`Engine` (the configuration builder) and the rotation arithmetic of the entity
module.  Machine integers (`i32`, `u16`, `u32`) are modelled as `Int`/`Nat`;
none of the verified properties brings values anywhere near the overflow
boundaries, so no wrap-around is modelled.  The `f32` arithmetic of
starting-position resolution is modelled exactly over `ℚ` with truncation
toward zero for the final `as i32` cast; all values exercised here are exactly
representable.  Rust `expect`/`unwrap` panics are modelled by `Option` (a
`none` result means the corresponding panic fires); `Result` values are
modelled by `Except` or an explicit result type.
-/

namespace Tui

/-! ### Constants (lib.rs) -/

def FPS_BOUNDS_LO : Nat := 1
def FPS_BOUNDS_HI : Nat := 30
def DEFAULT_FPS : Nat := 15

def X_SCALE : Int := 2
def Y_SCALE : Int := 1

/-! ### Error type (lib.rs `GameError`); payloads irrelevant to control flow
are dropped. -/

inductive GameError where
  | UpdateError (msg : String)
  | OutOfBounds
  | Io
  | Bmp
  | InvalidColor
  | InvalidArg (msg : String)
  | Unknown
deriving DecidableEq, Repr

/-! ### entity.rs data model -/

/-- `Input` received from the player. -/
inductive Input where
  | None
  | Up
  | Down
  | Left
  | Right
  | Quit
deriving DecidableEq, Repr

/-- `Vector`: movement/direction with `i32` components. -/
structure Vector where
  x : Int
  y : Int
deriving DecidableEq, Repr

/-- `Rotation`: one of the four quarter turns. -/
inductive Rotation where
  | Zero
  | HalfPi
  | Pi
  | ThreeHalvesPi
deriving DecidableEq, Repr

/-- The `as u32` view of a `Rotation` (discriminant order of the Rust enum). -/
def Rotation.toNat : Rotation → Nat
  | .Zero => 0
  | .HalfPi => 1
  | .Pi => 2
  | .ThreeHalvesPi => 3

/-- The decode arm of `Rotation::add_assign`; the argument is always a
remainder mod 4, so the Rust `_ => panic` arm is unreachable and the `_` case
here is only ever the value 3. -/
def Rotation.decode : Nat → Rotation
  | 0 => .Zero
  | 1 => .HalfPi
  | 2 => .Pi
  | _ => .ThreeHalvesPi

/-- `impl AddAssign for Rotation`: `*self = match (*self as u32 + rhs as u32) % 4`. -/
def Rotation.add_assign (r rhs : Rotation) : Rotation :=
  Rotation.decode ((r.toNat + rhs.toNat) % 4)

/-- `Update`: the tagged result of one entity's tick. -/
inductive Update where
  | None
  | Action (step : Vector) (rotate : Rotation)
  | Destroy
deriving DecidableEq, Repr

/-- `Sprite`: width, height and the decoded row-major pixel buffer (bmp
`Image.get_pixel(x, y)` reads index `y * width + x`). -/
structure Sprite where
  width : Nat
  height : Nat
  pixels : List (Nat × Nat × Nat)
deriving DecidableEq, Repr

/-- `Sprite::get_pixel`: reads the bmp image at `(x, height - y - 1)` (the
vertical flip from bmp's top-left origin). -/
def Sprite.get_pixel (s : Sprite) (x y : Nat) : Nat × Nat × Nat :=
  s.pixels.getD ((s.height - y - 1) * s.width + x) (0, 0, 0)

/-! ### lib.rs data model -/

/-- `Position`: canvas-space integer coordinates. -/
structure Position where
  x : Int
  y : Int
deriving DecidableEq, Repr

/-- `impl AddAssign<Vector> for Position`:
`self.x += rhs.x * X_SCALE; self.y += rhs.y * Y_SCALE`. -/
def Position.add_assign (p : Position) (rhs : Vector) : Position :=
  { x := p.x + rhs.x * X_SCALE, y := p.y + rhs.y * Y_SCALE }

/-- ratatui `Rect` (`u16` fields): `left = x`, `right = x + width`,
`top = y`, `bottom = y + height`.  The saturating additions of the real
`Rect` accessors are not modelled; terminal sizes stay far below `u16::MAX`. -/
structure Rect where
  x : Nat
  y : Nat
  width : Nat
  height : Nat
deriving DecidableEq, Repr

def Rect.left (r : Rect) : Nat := r.x
def Rect.right (r : Rect) : Nat := r.x + r.width
def Rect.top (r : Rect) : Nat := r.y
def Rect.bottom (r : Rect) : Nat := r.y + r.height

/-- `EntityState`: one record of the entity store.  The behavioural object
behind `Box<dyn Entity>` is an abstract type `E`; `entity = none` models the
cleared (destroyed-pending-prune) field. -/
structure EntityState (E : Type) where
  pos : Option Position
  rot : Rotation
  sprite : Sprite
  entity : Option E
deriving DecidableEq

/-- The embedder-supplied behaviour of `dyn Entity`.  `update` and `collision`
take `&mut self` (and `&mut other`), so they return the successor internal
states as well. -/
structure Ops (E : Type) where
  start_pos : E → ℚ × ℚ
  update : E → Input → Update × E
  collision : E → E → E × E

/-- `EntityState::overlaps`.  The two `expect`s on the positions are the
`Option` layer; the four `&&`-chained comparisons are one decidable
conjunction. -/
def EntityState.overlaps {E : Type} (a b : EntityState E) : Option Bool :=
  match a.pos, b.pos with
  | some pa, some pb =>
      some (decide (
        pa.x ≤ pb.x + ((b.sprite.width : Int) - 2) * X_SCALE ∧
        pa.x + ((a.sprite.width : Int) - 2) * X_SCALE ≥ pb.x ∧
        pa.y ≤ pb.y + ((b.sprite.height : Int) - 2) * Y_SCALE ∧
        pa.y + ((a.sprite.height : Int) - 2) * Y_SCALE ≥ pb.y))
  | _, _ => none

/-- `EntityState::within_bounds`. -/
def EntityState.within_bounds {E : Type} (es : EntityState E) (bounds : Rect) :
    Option Bool :=
  match es.pos with
  | some p =>
      some (decide (
        p.x > (bounds.left : Int) + 1 ∧
        p.x + ((es.sprite.width : Int) - 2) * X_SCALE < (bounds.right : Int) - 1 ∧
        p.y ≥ (bounds.top : Int) ∧
        p.y + ((es.sprite.height : Int) - 2) * Y_SCALE < (bounds.bottom : Int)))
  | none => none

/-! ### Engine builder (lib.rs `Engine`) -/

/-- `Engine`: only the `fps` configuration field is kept; title, colors and
the entity store do not interact with `set_fps`. -/
structure Engine where
  fps : Nat
deriving DecidableEq, Repr

/-- `Engine::new` (also `Default`). -/
def Engine.new : Engine := { fps := DEFAULT_FPS }

/-- `Engine::set_fps`: note the guard tests `self.fps`, the *current* field,
and on success stores the argument. -/
def Engine.set_fps (e : Engine) (fps : Nat) : Except GameError Engine :=
  if ¬ (FPS_BOUNDS_LO ≤ e.fps ∧ e.fps ≤ FPS_BOUNDS_HI) then
    Except.error (GameError.InvalidArg "fps must be between 1 and 30")
  else
    Except.ok { e with fps := fps }

/-! ### The update/collision pass (lib.rs `State::update_entities`)

The pass is decomposed into the loop bodies of the Rust source; an `Event`
trace records, in order, each delivered collision notification
(`collide i j` = record `i`'s entity received `collision` with record `j`'s
entity) and each `update` call (`updated i`). -/

inductive Event where
  | collide (i j : Nat)
  | updated (i : Nat)
deriving DecidableEq, Repr

/-- One iteration of the inner `for` loop for outer index `i` and inner index
`j`: check `overlaps` (its position `expect`s may panic), and when it holds
and both entities are live, deliver `entity.collision(other_entity)`. -/
def collideStep {E : Type} (ops : Ops E) (i j : Nat)
    (st : List (EntityState E)) : Option (List (EntityState E) × List Event) :=
  match st[i]?, st[j]? with
  | some si, some sj =>
      match si.overlaps sj with
      | none => none
      | some ov =>
          if ov then
            match si.entity, sj.entity with
            | some ei, some ej =>
                let r := ops.collision ei ej
                some ((st.set i { si with entity := some r.1 }).set j
                        { sj with entity := some r.2 },
                      [Event.collide i j])
            | _, _ => some (st, [])
          else some (st, [])
  | _, _ => none

/-- The inner `for` loop: all indices `j ≠ i`, in store order. -/
def collideLoop {E : Type} (ops : Ops E) (i : Nat) (js : List Nat)
    (st : List (EntityState E)) : Option (List (EntityState E) × List Event) :=
  match js with
  | [] => some (st, [])
  | j :: rest =>
      match collideStep ops i j st with
      | none => none
      | some (st1, tr1) =>
          match collideLoop ops i rest st1 with
          | none => none
          | some (st2, tr2) => some (st2, tr1 ++ tr2)

/-- The tail of the outer loop body for index `i`: call `update` on the live
entity (or take `Update::None`), then apply the `match update` integrator —
move with bounds-checked rollback, rotate, or clear the entity field. -/
def updateStep {E : Type} (ops : Ops E) (bounds : Rect) (input : Input)
    (i : Nat) (st : List (EntityState E)) :
    Option (List (EntityState E) × List Event) :=
  match st[i]? with
  | none => none
  | some si =>
      match si.entity with
      | none => some (st, [])
      | some e =>
          let r := ops.update e input
          let si1 : EntityState E := { si with entity := some r.2 }
          match r.1 with
          | Update.None => some (st.set i si1, [Event.updated i])
          | Update.Destroy =>
              some (st.set i { si1 with entity := none }, [Event.updated i])
          | Update.Action step rotate =>
              match si1.pos with
              | none => none
              | some p =>
                  let si2 : EntityState E :=
                    { si1 with pos := some (p.add_assign step) }
                  match si2.within_bounds bounds with
                  | none => none
                  | some wb =>
                      let si3 := if wb then si2 else { si2 with pos := some p }
                      some (st.set i { si3 with rot := si3.rot.add_assign rotate },
                            [Event.updated i])

/-- The outer `for` loop over `is`, where `n` is the (fixed) store length used
by the inner loop's index filter. -/
def runPass {E : Type} (ops : Ops E) (bounds : Rect) (input : Input) (n : Nat) :
    List Nat → List (EntityState E) → Option (List (EntityState E) × List Event)
  | [], st => some (st, [])
  | i :: rest, st =>
      match collideLoop ops i ((List.range n).filter (fun j => j ≠ i)) st with
      | none => none
      | some (st1, tr1) =>
          match updateStep ops bounds input i st1 with
          | none => none
          | some (st2, tr2) =>
              match runPass ops bounds input n rest st2 with
              | none => none
              | some (st3, tr3) => some (st3, tr1 ++ tr2 ++ tr3)

/-- `State::update_entities`: the full pass followed by
`retain(|s| s.entity.is_some())`. -/
def update_entities {E : Type} (ops : Ops E) (bounds : Rect) (input : Input)
    (st : List (EntityState E)) : Option (List (EntityState E) × List Event) :=
  match runPass ops bounds input st.length (List.range st.length) st with
  | none => none
  | some (st1, tr) => some (st1.filter (fun es => es.entity.isSome), tr)

/-! ### Starting-position resolution (lib.rs `State::set_starting_positions`) -/

/-- Truncation toward zero of a rational, modelling the Rust `as i32` cast of
the (here exactly representable) `f32` value. -/
def ratTrunc (q : ℚ) : Int := q.num.tdiv q.den

/-- Result of `set_starting_positions`: `panicked` models a Rust panic (an
`expect` firing), `err` an early `return Err(..)`. -/
inductive StartRes (α : Type) where
  | panicked
  | err (e : GameError)
  | ok (a : α)
deriving DecidableEq, Repr

/-- The loop body of `set_starting_positions` for one record: skipped when the
position is already resolved (the `filter`), otherwise position :=
`((right - left) as f32 * x - (width * X_SCALE) as f32 / 2, ...)` truncated,
followed by the `within_bounds` check. -/
def resolveOne {E : Type} (ops : Ops E) (bounds : Rect) (es : EntityState E) :
    StartRes (EntityState E) :=
  if es.pos.isSome then StartRes.ok es
  else
    match es.entity with
    | none => StartRes.panicked
    | some e =>
        let sp := ops.start_pos e
        let pos : Position :=
          { x := ratTrunc (((bounds.right - bounds.left : Nat) : ℚ) * sp.1 -
              ((es.sprite.width * 2 : Nat) : ℚ) / 2),
            y := ratTrunc (((bounds.bottom - bounds.top : Nat) : ℚ) * sp.2 -
              ((es.sprite.height * 1 : Nat) : ℚ) / 2) }
        let es' : EntityState E := { es with pos := some pos }
        match es'.within_bounds bounds with
        | none => StartRes.panicked
        | some true => StartRes.ok es'
        | some false => StartRes.err GameError.OutOfBounds

/-- `State::set_starting_positions` over the whole store (an `err` aborts the
loop early; the store prefix mutated before the abort is never observed by the
caller, which tears down on error). -/
def set_starting_positions {E : Type} (ops : Ops E) (bounds : Rect) :
    List (EntityState E) → StartRes (List (EntityState E))
  | [] => StartRes.ok []
  | es :: rest =>
      match resolveOne ops bounds es with
      | StartRes.panicked => StartRes.panicked
      | StartRes.err e => StartRes.err e
      | StartRes.ok es' =>
          match set_starting_positions ops bounds rest with
          | StartRes.panicked => StartRes.panicked
          | StartRes.err e => StartRes.err e
          | StartRes.ok rest' => StartRes.ok (es' :: rest')

/-! ### Rendering (lib.rs `State::render_entities`)

The per-pixel `Painter::get_point` projection and the `X_SCALE × Y_SCALE`
block fill belong to the excluded Display Surface; the model produces the
list of logical paint commands (canvas coordinate and sampled color) per
record.  Only the position `expect` can panic, which is the `Option` layer. -/

structure PaintCmd where
  x : Int
  y : Int
  color : Nat × Nat × Nat
deriving DecidableEq, Repr

/-- The loop body of `render_entities` for one record: the rotation-dependent
iteration ranges, pixel remapping, and canvas coordinates
`pos + (x * X_SCALE, y * Y_SCALE)`. -/
def renderEntity {E : Type} (es : EntityState E) : Option (List PaintCmd) :=
  match es.pos with
  | none => none
  | some pos =>
      let dims :=
        match es.rot with
        | Rotation.Zero | Rotation.Pi => (es.sprite.width, es.sprite.height)
        | _ => (es.sprite.height, es.sprite.width)
      some ((List.range dims.1).flatMap (fun (x : Nat) =>
        (List.range dims.2).map (fun (y : Nat) =>
        let rgb :=
          match es.rot with
          | Rotation.Zero => es.sprite.get_pixel x y
          | Rotation.HalfPi =>
              es.sprite.get_pixel (es.sprite.width - y - 1) (es.sprite.height - x - 1)
          | Rotation.Pi =>
              es.sprite.get_pixel (es.sprite.width - x - 1) (es.sprite.height - y - 1)
          | Rotation.ThreeHalvesPi => es.sprite.get_pixel y x
        { x := pos.x + (x : Int) * X_SCALE,
          y := pos.y + (y : Int) * Y_SCALE,
          color := rgb })))

/-- `State::render_entities` over the whole store (`&self`: the store itself
is not mutated). -/
def render_entities {E : Type} :
    List (EntityState E) → Option (List PaintCmd)
  | [] => some []
  | es :: rest =>
      match renderEntity es with
      | none => none
      | some cmds =>
          match render_entities rest with
          | none => none
          | some more => some (cmds ++ more)

/-! ### Spec-worded comparison definitions (for refutation only) -/

/-- Modelled from the spec's words for the collision claim: boxes of *full*
scaled extent (`width × X_SCALE`, `height × Y_SCALE`) with *strict* interior
overlap on both axes; to be compared against `EntityState.overlaps`. -/
def spec_overlaps {E : Type} (a b : EntityState E) : Option Bool :=
  match a.pos, b.pos with
  | some pa, some pb =>
      some (decide (
        pa.x + (a.sprite.width : Int) * X_SCALE > pb.x ∧
        pa.x < pb.x + (b.sprite.width : Int) * X_SCALE ∧
        pa.y + (a.sprite.height : Int) * Y_SCALE > pb.y ∧
        pa.y < pb.y + (b.sprite.height : Int) * Y_SCALE))
  | _, _ => none

/-- An event `e` occurs strictly before `e'` in the trace `tr`. -/
abbrev Before (tr : List Event) (e e' : Event) : Prop :=
  tr.indexOf e < tr.indexOf e'

/-- Modelled from the spec's words for the ordering claim: every delivered
collision notification precedes *both* participants' `update` events. -/
def spec_notifiedBeforeUpdates (tr : List Event) : Prop :=
  ∀ i j, Event.collide i j ∈ tr →
    Before tr (Event.collide i j) (Event.updated i) ∧
    Before tr (Event.collide i j) (Event.updated j)

/-! ### Concrete fixtures used by counterexamples and witnesses -/

/-- A 4×4 sprite (pixel colors are irrelevant to geometry). -/
def sprite44 : Sprite := { width := 4, height := 4, pixels := [] }

/-- A 40×20 canvas at the origin. -/
def bounds4020 : Rect := { x := 0, y := 0, width := 40, height := 20 }

/-- Behaviour with inert entities: never move, never rotate, ignore
collisions. -/
def passOps : Ops Unit :=
  { start_pos := fun _ => ((1 : ℚ) / 2, (1 : ℚ) / 2),
    update := fun _ _ => (Update.None, ()),
    collision := fun a b => (a, b) }

/-- Behaviour that always requests a step of (1, 0) and a 90° turn. -/
def stepOps : Ops Unit :=
  { start_pos := fun _ => (0, 0),
    update := fun _ _ => (Update.Action { x := 1, y := 0 } Rotation.HalfPi, ()),
    collision := fun a b => (a, b) }

/-- Behaviour that always requests destruction. -/
def destroyOps : Ops Unit :=
  { start_pos := fun _ => (0, 0),
    update := fun _ _ => (Update.Destroy, ()),
    collision := fun a b => (a, b) }

def ovA : EntityState Unit :=
  { pos := some { x := 0, y := 0 }, rot := Rotation.Zero,
    sprite := sprite44, entity := some () }

def ovB : EntityState Unit :=
  { pos := some { x := 6, y := 0 }, rot := Rotation.Zero,
    sprite := sprite44, entity := some () }

def passA : EntityState Unit :=
  { pos := some { x := 10, y := 10 }, rot := Rotation.Zero,
    sprite := sprite44, entity := some () }

def passB : EntityState Unit :=
  { pos := some { x := 12, y := 10 }, rot := Rotation.Zero,
    sprite := sprite44, entity := some () }

/-- A record with unresolved starting position. -/
def startRec : EntityState Unit :=
  { pos := none, rot := Rotation.Zero, sprite := sprite44, entity := some () }

/-- A record sitting one step away from the right border of `bounds4020`:
in bounds at (34, 10), out of bounds after a step of (1, 0). -/
def edgeRec : EntityState Unit :=
  { pos := some { x := 34, y := 10 }, rot := Rotation.Zero,
    sprite := sprite44, entity := some () }

/-! ### Invariant vocabulary -/

/-- The geometric part of a record: position, rotation, sprite — everything
except the behavioural entity object. -/
def geom {E : Type} (st : List (EntityState E)) :
    List (Option Position × Rotation × Sprite) :=
  st.map (fun es => (es.pos, es.rot, es.sprite))

/-- Every record's position is resolved. -/
def PosOk {E : Type} (st : List (EntityState E)) : Prop :=
  ∀ es ∈ st, es.pos.isSome

/-- Every record passes the bounds check. -/
def AllWB {E : Type} (bounds : Rect) (st : List (EntityState E)) : Prop :=
  ∀ es ∈ st, es.within_bounds bounds = some true

/-! ## Theorems -/

/-- `within_bounds` reads only the position and the sprite of a record. -/
theorem within_bounds_congr {E F : Type} (a : EntityState E) (b : EntityState F)
    (bounds : Rect) (hp : a.pos = b.pos) (hs : a.sprite = b.sprite) :
    a.within_bounds bounds = b.within_bounds bounds := by
  unfold EntityState.within_bounds
  rw [hp, hs]

theorem length_geom {E : Type} (st : List (EntityState E)) :
    (geom st).length = st.length := List.length_map ..

theorem getElem?_geom {E : Type} (st : List (EntityState E)) (k : Nat) :
    (geom st)[k]? = st[k]?.map (fun es => (es.pos, es.rot, es.sprite)) :=
  List.getElem?_map ..

/-- Corresponding records of stores with equal geometry agree on position,
rotation and sprite. -/
theorem geom_eq_get {E : Type} {st st' : List (EntityState E)}
    (h : geom st' = geom st) {k : Nat} {es' : EntityState E}
    (hk : st'[k]? = some es') :
    ∃ es, st[k]? = some es ∧ es.pos = es'.pos ∧ es.rot = es'.rot ∧
      es.sprite = es'.sprite := by
  have h2 : (geom st)[k]? = some (es'.pos, es'.rot, es'.sprite) := by
    rw [← h, getElem?_geom, hk]; rfl
  rw [getElem?_geom] at h2
  cases hes : st[k]? with
  | none => rw [hes] at h2; cases h2
  | some es =>
      rw [hes] at h2
      simp only [Option.map_some', Option.some.injEq, Prod.mk.injEq] at h2
      exact ⟨es, rfl, h2.1, h2.2.1, h2.2.2⟩

theorem PosOk_of_geom_eq {E : Type} {st st' : List (EntityState E)}
    (h : geom st' = geom st) (hpos : PosOk st) : PosOk st' := by
  intro es' hmem
  obtain ⟨k, hk⟩ := List.mem_iff_getElem?.mp hmem
  obtain ⟨es, hes, hp, _, _⟩ := geom_eq_get h hk
  rw [← hp]
  exact hpos es (List.mem_iff_getElem?.mpr ⟨k, hes⟩)

theorem AllWB_of_geom_eq {E : Type} {bounds : Rect}
    {st st' : List (EntityState E)}
    (h : geom st' = geom st) (hwb : AllWB bounds st) : AllWB bounds st' := by
  intro es' hmem
  obtain ⟨k, hk⟩ := List.mem_iff_getElem?.mp hmem
  obtain ⟨es, hes, hp, _, hs⟩ := geom_eq_get h hk
  rw [← within_bounds_congr es es' bounds hp hs]
  exact hwb es (List.mem_iff_getElem?.mpr ⟨k, hes⟩)

/-- Setting a record to an entity-only modification leaves `geom` unchanged. -/
theorem geom_set_entity {E : Type} (st : List (EntityState E)) (i : Nat)
    (si : EntityState E) (x : Option E) (h : st[i]? = some si) :
    geom (st.set i { si with entity := x }) = geom st := by
  apply List.ext_getElem?
  intro n
  rw [getElem?_geom, getElem?_geom, List.getElem?_set]
  by_cases hni : i = n
  · subst hni
    have hlen : i < st.length := (List.getElem?_eq_some.mp h).1
    rw [if_pos rfl, if_pos hlen, h]
    rfl
  · rw [if_neg hni]

theorem PosOk_get {E : Type} {st : List (EntityState E)} (h : PosOk st)
    {k : Nat} {si : EntityState E} (hk : st[k]? = some si) : si.pos.isSome :=
  h si (List.mem_iff_getElem?.mpr ⟨k, hk⟩)

theorem AllWB_get {E : Type} {bounds : Rect} {st : List (EntityState E)}
    (h : AllWB bounds st) {k : Nat} {si : EntityState E}
    (hk : st[k]? = some si) : si.within_bounds bounds = some true :=
  h si (List.mem_iff_getElem?.mpr ⟨k, hk⟩)

/-- `overlaps` returns a value whenever both positions are resolved. -/
theorem overlaps_isSome {E : Type} {a b : EntityState E}
    (ha : a.pos.isSome) (hb : b.pos.isSome) :
    ∃ v, a.overlaps b = some v := by
  obtain ⟨pa, hpa⟩ := Option.isSome_iff_exists.mp ha
  obtain ⟨pb, hpb⟩ := Option.isSome_iff_exists.mp hb
  unfold EntityState.overlaps
  rw [hpa, hpb]
  exact ⟨_, rfl⟩

/-- One inner-loop iteration succeeds when both records exist with resolved
positions, and it never changes any record's geometry. -/
theorem collideStep_spec {E : Type} (ops : Ops E) (i j : Nat)
    (st : List (EntityState E)) (hpos : PosOk st)
    (hi : i < st.length) (hj : j < st.length) (hij : j ≠ i) :
    ∃ st' tr, collideStep ops i j st = some (st', tr) ∧ geom st' = geom st := by
  have hsi : st[i]? = some st[i] := List.getElem?_eq_some.mpr ⟨hi, rfl⟩
  have hsj : st[j]? = some st[j] := List.getElem?_eq_some.mpr ⟨hj, rfl⟩
  obtain ⟨v, hv⟩ := overlaps_isSome (PosOk_get hpos hsi) (PosOk_get hpos hsj)
  unfold collideStep
  rw [hsi, hsj]
  dsimp only
  rw [hv]
  cases v with
  | false => exact ⟨st, [], rfl, rfl⟩
  | true =>
      simp only [if_true]
      cases hei : st[i].entity with
      | none => exact ⟨st, [], rfl, rfl⟩
      | some ei =>
          cases hej : st[j].entity with
          | none => exact ⟨st, [], rfl, rfl⟩
          | some ej =>
              refine ⟨_, _, rfl, ?_⟩
              have h1 : geom (st.set i { st[i] with
                  entity := some (ops.collision ei ej).1 }) = geom st :=
                geom_set_entity st i st[i] _ hsi
              have hsj' : (st.set i { st[i] with
                  entity := some (ops.collision ei ej).1 })[j]? = some st[j] := by
                rw [List.getElem?_set_ne (fun h => hij h.symm), hsj]
              exact (geom_set_entity _ j st[j] _ hsj').trans h1

/-- The lengths of two stores with equal geometry agree. -/
theorem length_of_geom_eq {E : Type} {st st' : List (EntityState E)}
    (h : geom st' = geom st) : st'.length = st.length := by
  have := congrArg List.length h
  rwa [length_geom, length_geom] at this

/-- The inner loop succeeds under resolved positions and valid indices, and
never changes any record's geometry. -/
theorem collideLoop_spec {E : Type} (ops : Ops E) (i : Nat) (js : List Nat)
    (st : List (EntityState E)) (hpos : PosOk st) (hi : i < st.length)
    (hjs : ∀ j ∈ js, j < st.length ∧ j ≠ i) :
    ∃ st' tr, collideLoop ops i js st = some (st', tr) ∧ geom st' = geom st := by
  induction js generalizing st with
  | nil => exact ⟨st, [], rfl, rfl⟩
  | cons j rest ih =>
      obtain ⟨hjlen, hjne⟩ := hjs j (List.mem_cons_self ..)
      obtain ⟨st1, tr1, hstep, hg1⟩ :=
        collideStep_spec ops i j st hpos hi hjlen hjne
      have hlen1 : st1.length = st.length := length_of_geom_eq hg1
      obtain ⟨st2, tr2, hloop, hg2⟩ :=
        ih st1 (PosOk_of_geom_eq hg1 hpos) (hlen1 ▸ hi)
          (fun j' hj' => ⟨hlen1 ▸ (hjs j' (List.mem_cons_of_mem _ hj')).1,
            (hjs j' (List.mem_cons_of_mem _ hj')).2⟩)
      refine ⟨st2, tr1 ++ tr2, ?_, hg2.trans hg1⟩
      simp only [collideLoop, hstep, hloop]

/-- Integrator equation, dead record: a record whose entity field was already
cleared is skipped (`Update::None` with no `update` call). -/
theorem updateStep_dead_eq {E : Type} (ops : Ops E) (bounds : Rect)
    (input : Input) (i : Nat) (st : List (EntityState E))
    (si : EntityState E) (hsi : st[i]? = some si) (he : si.entity = none) :
    updateStep ops bounds input i st = some (st, []) := by
  simp only [updateStep, hsi, he]

/-- Integrator equation, `Update::None`: only the entity's internal state
advances. -/
theorem updateStep_noneU_eq {E : Type} (ops : Ops E) (bounds : Rect)
    (input : Input) (i : Nat) (st : List (EntityState E))
    (si : EntityState E) (e e' : E) (hsi : st[i]? = some si)
    (he : si.entity = some e) (hu : ops.update e input = (Update.None, e')) :
    updateStep ops bounds input i st =
      some (st.set i { si with entity := some e' }, [Event.updated i]) := by
  simp only [updateStep, hsi, he, hu]

/-- Integrator equation, `Update::Destroy`: exactly the entity field of the
record is cleared; position, rotation and sprite stay, and the record stays
in the store. -/
theorem updateStep_destroy_eq {E : Type} (ops : Ops E) (bounds : Rect)
    (input : Input) (i : Nat) (st : List (EntityState E))
    (si : EntityState E) (e e' : E) (hsi : st[i]? = some si)
    (he : si.entity = some e) (hu : ops.update e input = (Update.Destroy, e')) :
    updateStep ops bounds input i st =
      some (st.set i { si with entity := none }, [Event.updated i]) := by
  simp only [updateStep, hsi, he, hu]

/-- Integrator equation, `Update::Action`: the scaled step is added to the
position; if the moved record fails the bounds check the position is rolled
back to its pre-update value; the rotation is combined in either case. -/
theorem updateStep_action_eq {E : Type} (ops : Ops E) (bounds : Rect)
    (input : Input) (i : Nat) (st : List (EntityState E))
    (si : EntityState E) (e e' : E) (step : Vector) (rotate : Rotation)
    (p : Position) (hsi : st[i]? = some si) (he : si.entity = some e)
    (hp : si.pos = some p)
    (hu : ops.update e input = (Update.Action step rotate, e')) :
    ∃ wb : Bool,
      EntityState.within_bounds
        { si with pos := some (p.add_assign step), entity := some e' } bounds
        = some wb ∧
      updateStep ops bounds input i st =
        some (st.set i
          { si with
            entity := some e'
            pos := if wb then some (p.add_assign step) else some p
            rot := si.rot.add_assign rotate }, [Event.updated i]) := by
  have hwb : ∃ w, EntityState.within_bounds
      { si with pos := some (p.add_assign step), entity := some e' } bounds
      = some w := by
    unfold EntityState.within_bounds
    exact ⟨_, rfl⟩
  obtain ⟨w, hw⟩ := hwb
  refine ⟨w, hw, ?_⟩
  simp only [updateStep, hsi, he, hu, hp]
  simp only [hw]
  cases w <;> rfl

/-- `updateStep` succeeds when record `i` exists with a resolved position; it
leaves all other records untouched and keeps record `i`'s position resolved,
its sprite unchanged, and its bounds check satisfied if it was before. -/
theorem updateStep_spec {E : Type} (ops : Ops E) (bounds : Rect)
    (input : Input) (i : Nat) (st : List (EntityState E))
    (si : EntityState E) (hsi : st[i]? = some si) (hpi : si.pos.isSome) :
    ∃ st' tr, updateStep ops bounds input i st = some (st', tr) ∧
      st'.length = st.length ∧
      (∀ k, k ≠ i → st'[k]? = st[k]?) ∧
      ∃ si', st'[i]? = some si' ∧ si'.pos.isSome ∧ si'.sprite = si.sprite ∧
        (si.within_bounds bounds = some true →
          si'.within_bounds bounds = some true) := by
  have hilen : i < st.length := (List.getElem?_eq_some.mp hsi).1
  obtain ⟨p, hp⟩ := Option.isSome_iff_exists.mp hpi
  cases he : si.entity with
  | none =>
      exact ⟨st, [], updateStep_dead_eq ops bounds input i st si hsi he,
        rfl, fun _ _ => rfl, si, hsi, hpi, rfl, id⟩
  | some e =>
      rcases hu : ops.update e input with ⟨upd, e'⟩
      cases upd with
      | None =>
          refine ⟨_, _, updateStep_noneU_eq ops bounds input i st si e e' hsi he hu,
            List.length_set .., fun k hk => List.getElem?_set_ne (fun h => hk h.symm),
            _, List.getElem?_set_self hilen, hpi, rfl, fun h => ?_⟩
          rwa [within_bounds_congr { si with entity := some e' } si bounds rfl rfl]
      | Destroy =>
          refine ⟨_, _, updateStep_destroy_eq ops bounds input i st si e e' hsi he hu,
            List.length_set .., fun k hk => List.getElem?_set_ne (fun h => hk h.symm),
            _, List.getElem?_set_self hilen, hpi, rfl, fun h => ?_⟩
          rwa [within_bounds_congr { si with entity := none } si bounds rfl rfl]
      | Action step rotate =>
          obtain ⟨wb, hwb, heq⟩ :=
            updateStep_action_eq ops bounds input i st si e e' step rotate p hsi he hp hu
          refine ⟨_, _, heq, List.length_set ..,
            fun k hk => List.getElem?_set_ne (fun h => hk h.symm),
            _, List.getElem?_set_self hilen, ?_, rfl, fun h => ?_⟩
          · cases wb <;> rfl
          · cases wb with
            | true => exact (within_bounds_congr _ _ bounds rfl rfl).trans hwb
            | false =>
                have hc := within_bounds_congr
                  ({ pos := if false = true then some (p.add_assign step) else some p
                     rot := si.rot.add_assign rotate
                     sprite := si.sprite
                     entity := some e' } : EntityState E) si bounds (by simp [hp]) rfl
                exact hc.trans h

/-- The whole pass succeeds when every position is resolved; it preserves the
store length, keeps every position resolved, and preserves the bounds
invariant. -/
theorem runPass_spec {E : Type} (ops : Ops E) (bounds : Rect) (input : Input)
    (n : Nat) (is : List Nat) (st : List (EntityState E))
    (hlen : st.length = n) (his : ∀ i ∈ is, i < n) (hpos : PosOk st) :
    ∃ st' tr, runPass ops bounds input n is st = some (st', tr) ∧
      st'.length = n ∧ PosOk st' ∧
      (AllWB bounds st → AllWB bounds st') := by
  induction is generalizing st with
  | nil => exact ⟨st, [], rfl, hlen, hpos, id⟩
  | cons i rest ih =>
      have hi : i < st.length := hlen ▸ his i (List.mem_cons_self ..)
      obtain ⟨st1, tr1, hloop, hg1⟩ :=
        collideLoop_spec ops i ((List.range n).filter (fun j => j ≠ i)) st hpos hi
          (by
            intro j hj
            obtain ⟨hjr, hjd⟩ := List.mem_filter.mp hj
            exact ⟨hlen ▸ List.mem_range.mp hjr, of_decide_eq_true hjd⟩)
      have hlen1 : st1.length = st.length := length_of_geom_eq hg1
      have hpos1 : PosOk st1 := PosOk_of_geom_eq hg1 hpos
      have hi1 : i < st1.length := hlen1 ▸ hi
      have hsi1 : st1[i]? = some st1[i] := List.getElem?_eq_some.mpr ⟨hi1, rfl⟩
      obtain ⟨st2, tr2, hstepEq, hlen2, hothers, si', hsi', hpos', hspr', hwb'⟩ :=
        updateStep_spec ops bounds input i st1 st1[i] hsi1 (PosOk_get hpos1 hsi1)
      have hpos2 : PosOk st2 := by
        intro es hmem
        obtain ⟨k, hk⟩ := List.mem_iff_getElem?.mp hmem
        by_cases hki : k = i
        · subst hki
          rw [hsi'] at hk
          cases hk
          exact hpos'
        · rw [hothers k hki] at hk
          exact PosOk_get hpos1 hk
      have hwb2 : AllWB bounds st1 → AllWB bounds st2 := by
        intro hwb1 es hmem
        obtain ⟨k, hk⟩ := List.mem_iff_getElem?.mp hmem
        by_cases hki : k = i
        · subst hki
          rw [hsi'] at hk
          cases hk
          exact hwb' (AllWB_get hwb1 hsi1)
        · rw [hothers k hki] at hk
          exact AllWB_get hwb1 hk
      obtain ⟨st3, tr3, hrest, hlen3, hpos3, hwb3⟩ :=
        ih st2 (hlen2.trans (hlen1.trans hlen))
          (fun j hj => his j (List.mem_cons_of_mem _ hj)) hpos2
      refine ⟨st3, tr1 ++ tr2 ++ tr3, ?_, hlen3, hpos3,
        fun hwb => hwb3 (hwb2 (AllWB_of_geom_eq hg1 hwb))⟩
      simp only [runPass, hloop, hstepEq, hrest]

/-- `update_entities` succeeds when every position is resolved; afterwards
every surviving record still has a resolved position, and the bounds
invariant is preserved. -/
theorem update_entities_spec {E : Type} (ops : Ops E) (bounds : Rect)
    (input : Input) (st : List (EntityState E)) (hpos : PosOk st) :
    ∃ mid out tr,
      runPass ops bounds input st.length (List.range st.length) st
        = some (mid, tr) ∧
      mid.length = st.length ∧ PosOk mid ∧
      (AllWB bounds st → AllWB bounds mid) ∧
      out = mid.filter (fun es => es.entity.isSome) ∧
      update_entities ops bounds input st = some (out, tr) := by
  obtain ⟨mid, tr, hrun, hlen, hpos', hwb⟩ :=
    runPass_spec ops bounds input st.length (List.range st.length) st rfl
      (fun i hi => List.mem_range.mp hi) hpos
  refine ⟨mid, _, tr, hrun, hlen, hpos', hwb, rfl, ?_⟩
  simp only [update_entities, hrun]

/-- C1: `Engine::set_fps`'s guard tests the engine's *current* fps field, not
the argument: from the default engine (fps = 15, in range) every value is
accepted, including the out-of-range 0 and 31, and the claimed `InvalidArg`
error is never produced there; conversely, once an out-of-range value has been
stored, even an in-range argument is rejected. -/
theorem set_fps_validates_current_field :
    Engine.new.set_fps 31 = Except.ok { fps := 31 } ∧
    Engine.new.set_fps 0 = Except.ok { fps := 0 } ∧
    Engine.new.set_fps 20 = Except.ok { fps := 20 } ∧
    ({ fps := 31 } : Engine).set_fps 20 =
      Except.error (GameError.InvalidArg "fps must be between 1 and 30") :=
  ⟨rfl, rfl, rfl, rfl⟩

/-- C8: rotation combination is addition mod 4 on the quarter-turn
discriminants, and four successive 90° turns return every rotation to its
original value. -/
theorem rotation_add_mod4 (r d : Rotation) :
    (r.add_assign d).toNat = (r.toNat + d.toNat) % 4 ∧
    (((r.add_assign Rotation.HalfPi).add_assign Rotation.HalfPi).add_assign
        Rotation.HalfPi).add_assign Rotation.HalfPi = r := by
  cases r <;> cases d <;> exact ⟨rfl, rfl⟩

/-- C9: `EntityState::overlaps` is symmetric in its two records (also in the
panic cases: if either position is unresolved, both orders panic). -/
theorem overlaps_symm {E : Type} (a b : EntityState E) :
    a.overlaps b = b.overlaps a := by
  unfold EntityState.overlaps
  cases ha : a.pos with
  | none => cases hb : b.pos <;> rfl
  | some pa =>
      cases hb : b.pos with
      | none => rfl
      | some pb =>
          simp only [Option.some.injEq]
          rw [decide_eq_decide]
          omega

/-- C4: if every record passes the bounds check before a tick's update pass,
then every record surviving `update_entities` still passes it afterwards; and
at the point in the pass where a live entity's update requests a step whose
moved record fails the bounds check, the integrator leaves the record's
position unchanged (only entity state and rotation advance). -/
theorem bounds_invariant_preserved {E : Type} (ops : Ops E) (bounds : Rect)
    (input : Input) (st : List (EntityState E))
    (hwb : ∀ es ∈ st, es.within_bounds bounds = some true) :
    (∃ out tr, update_entities ops bounds input st = some (out, tr) ∧
       ∀ es ∈ out, es.within_bounds bounds = some true) ∧
    (∀ (stMid : List (EntityState E)) (i : Nat) (si : EntityState E)
       (e e' : E) (step : Vector) (rotate : Rotation) (p : Position),
       stMid[i]? = some si → si.entity = some e → si.pos = some p →
       ops.update e input = (Update.Action step rotate, e') →
       EntityState.within_bounds
         { si with pos := some (p.add_assign step), entity := some e' } bounds
         = some false →
       updateStep ops bounds input i stMid =
         some (stMid.set i
           { si with entity := some e', rot := si.rot.add_assign rotate },
           [Event.updated i])) := by
  constructor
  · have hpos : PosOk st := by
      intro es hm
      have h1 := hwb es hm
      unfold EntityState.within_bounds at h1
      cases h : es.pos with
      | none =>
          simp only [h] at h1
          exact Option.noConfusion h1
      | some p => rfl
    obtain ⟨mid, out, tr, _, _, _, hw, hout, heq⟩ :=
      update_entities_spec ops bounds input st hpos
    refine ⟨out, tr, heq, ?_⟩
    intro es hmem
    rw [hout] at hmem
    exact (hw hwb) es (List.mem_filter.mp hmem).1
  · intro stMid i si e e' step rotate p hsi he hp hu hnwb
    obtain ⟨wb, hwbEq, heq⟩ :=
      updateStep_action_eq ops bounds input i stMid si e e' step rotate p hsi he hp hu
    have hwf : wb = false := by
      rw [hwbEq] at hnwb
      cases hnwb
      rfl
    subst hwf
    have hrec : ({ si with entity := some e', rot := si.rot.add_assign rotate }
        : EntityState E) =
        { si with
          entity := some e'
          pos := some p
          rot := si.rot.add_assign rotate } := by
      rw [hp]
    rw [hrec]
    exact heq

/-- C4 witness: a single 4×4 record at (34, 10) on the 40×20 canvas is within
bounds; its entity always requests step (1, 0), which would move it out of
bounds, so the move is rolled back: after the tick it is unchanged except for
the rotation, and the integrator equation at that input is exactly the
rollback. -/
theorem bounds_invariant_witness :
    (∀ es ∈ [edgeRec], es.within_bounds bounds4020 = some true) ∧
    (∃ out tr,
       update_entities stepOps bounds4020 Input.None [edgeRec] = some (out, tr) ∧
       ∀ es ∈ out, es.within_bounds bounds4020 = some true) ∧
    updateStep stepOps bounds4020 Input.None 0 [edgeRec] =
      some ([edgeRec].set 0
        { edgeRec with entity := some (), rot := Rotation.Zero.add_assign Rotation.HalfPi },
        [Event.updated 0]) :=
  have h := bounds_invariant_preserved stepOps bounds4020 Input.None [edgeRec]
    (by decide)
  ⟨by decide, h.1,
    h.2 [edgeRec] 0 edgeRec () () { x := 1, y := 0 } Rotation.HalfPi
      { x := 34, y := 10 } rfl rfl rfl rfl (by decide)⟩

/-- C5: when a live entity's update returns `Action{step, rotate}`, the
record's new position is the old one plus (step.x × 2, step.y × 1)
(X_SCALE = 2, Y_SCALE = 1); if the moved record fails the bounds check the
old position is retained instead; and in either case the new rotation is
(old + rotate) mod 4 — applied whether or not the move was rolled back. -/
theorem integrator_action_semantics {E : Type} (ops : Ops E) (bounds : Rect)
    (input : Input) (i : Nat) (st : List (EntityState E))
    (si : EntityState E) (e e' : E) (step : Vector) (rotate : Rotation)
    (p : Position) (hsi : st[i]? = some si) (he : si.entity = some e)
    (hp : si.pos = some p)
    (hu : ops.update e input = (Update.Action step rotate, e')) :
    X_SCALE = 2 ∧ Y_SCALE = 1 ∧
    p.add_assign step = { x := p.x + step.x * 2, y := p.y + step.y * 1 } ∧
    (si.rot.add_assign rotate).toNat = (si.rot.toNat + rotate.toNat) % 4 ∧
    ∃ wb : Bool,
      EntityState.within_bounds
        { si with pos := some (p.add_assign step), entity := some e' } bounds
        = some wb ∧
      updateStep ops bounds input i st =
        some (st.set i
          { si with
            entity := some e'
            pos := if wb then some (p.add_assign step) else some p
            rot := si.rot.add_assign rotate }, [Event.updated i]) := by
  refine ⟨rfl, rfl, by simp [Position.add_assign, X_SCALE, Y_SCALE], ?_,
    updateStep_action_eq ops bounds input i st si e e' step rotate p hsi he hp hu⟩
  cases si.rot <;> cases rotate <;> rfl

/-- C5 witness: the record at (34, 10) with an entity requesting
step (1, 0) and a 90° turn instantiates the integrator equation. -/
theorem integrator_action_semantics_witness :
    [edgeRec][0]? = some edgeRec ∧
    edgeRec.entity = some () ∧
    edgeRec.pos = some { x := 34, y := 10 } ∧
    stepOps.update () Input.None =
      (Update.Action { x := 1, y := 0 } Rotation.HalfPi, ()) ∧
    ∃ wb : Bool,
      EntityState.within_bounds
        { edgeRec with
          pos := some (Position.add_assign { x := 34, y := 10 } { x := 1, y := 0 })
          entity := some () } bounds4020 = some wb ∧
      updateStep stepOps bounds4020 Input.None 0 [edgeRec] =
        some ([edgeRec].set 0
          { edgeRec with
            entity := some ()
            pos := if wb then
                some (Position.add_assign { x := 34, y := 10 } { x := 1, y := 0 })
              else some { x := 34, y := 10 }
            rot := Rotation.Zero.add_assign Rotation.HalfPi },
          [Event.updated 0]) :=
  ⟨rfl, rfl, rfl, rfl,
    (integrator_action_semantics stepOps bounds4020 Input.None 0 [edgeRec]
      edgeRec () () { x := 1, y := 0 } Rotation.HalfPi { x := 34, y := 10 }
      rfl rfl rfl rfl).2.2.2.2⟩

/-- C7: destruction is two-phase.  A live entity returning `Destroy` has only
its record's entity field cleared, in place — position, rotation and sprite
stay and the record stays in the store (the pass preserves the record count).
`update_entities` then hands the next tick exactly the pass result filtered to
records with a present entity, so at the start of every tick's pass every
record's entity field is present. -/
theorem two_phase_destroy {E : Type} (ops : Ops E) (bounds : Rect)
    (input : Input) (st : List (EntityState E)) (hpos : PosOk st) :
    (∃ mid tr,
       runPass ops bounds input st.length (List.range st.length) st
         = some (mid, tr) ∧
       mid.length = st.length ∧
       update_entities ops bounds input st
         = some (mid.filter (fun es => es.entity.isSome), tr) ∧
       ∀ es ∈ mid.filter (fun es => es.entity.isSome), es.entity.isSome) ∧
    (∀ (stMid : List (EntityState E)) (i : Nat) (si : EntityState E)
       (e e' : E),
       stMid[i]? = some si → si.entity = some e →
       ops.update e input = (Update.Destroy, e') →
       updateStep ops bounds input i stMid =
         some (stMid.set i { si with entity := none }, [Event.updated i])) := by
  constructor
  · obtain ⟨mid, out, tr, hrun, hlen, _, _, hout, heq⟩ :=
      update_entities_spec ops bounds input st hpos
    exact ⟨mid, tr, hrun, hlen, hout ▸ heq,
      fun es hm => (List.mem_filter.mp hm).2⟩
  · intro stMid i si e e' hsi he hu
    exact updateStep_destroy_eq ops bounds input i stMid si e e' hsi he hu

/-- C7 witness: a single live record whose entity requests `Destroy`:
the pass keeps the record (clearing only its entity field) and the filtered
store handed to the next tick is empty — every record in it trivially has a
present entity. -/
theorem two_phase_destroy_witness :
    (∀ es ∈ [passA], es.pos.isSome) ∧
    (∃ mid tr,
       runPass destroyOps bounds4020 Input.None [passA].length
         (List.range [passA].length) [passA] = some (mid, tr) ∧
       mid.length = [passA].length ∧
       update_entities destroyOps bounds4020 Input.None [passA]
         = some (mid.filter (fun es => es.entity.isSome), tr) ∧
       ∀ es ∈ mid.filter (fun es => es.entity.isSome), es.entity.isSome) ∧
    updateStep destroyOps bounds4020 Input.None 0 [passA] =
      some ([passA].set 0 { passA with entity := none }, [Event.updated 0]) :=
  have h := two_phase_destroy destroyOps bounds4020 Input.None [passA]
    (fun es hm => by rw [List.mem_singleton.mp hm]; rfl)
  ⟨(fun es hm => by rw [List.mem_singleton.mp hm]; rfl),
    h.1, h.2 [passA] 0 passA () () rfl rfl rfl⟩

/-- A record successfully resolved by the starting-position pass has a
resolved position. -/
theorem resolveOne_posOk {E : Type} (ops : Ops E) (bounds : Rect)
    (es es' : EntityState E) (h : resolveOne ops bounds es = StartRes.ok es') :
    es'.pos.isSome := by
  unfold resolveOne at h
  by_cases hp : es.pos.isSome
  · rw [if_pos hp] at h
    cases h
    exact hp
  · rw [if_neg hp] at h
    cases he : es.entity with
    | none => rw [he] at h; cases h
    | some e =>
        rw [he] at h
        dsimp only at h
        have hw : ∃ b,
            EntityState.within_bounds
              ({ pos := some {
                   x := ratTrunc (((bounds.right - bounds.left : Nat) : ℚ) *
                     (ops.start_pos e).1 - ((es.sprite.width * 2 : Nat) : ℚ) / 2)
                   y := ratTrunc (((bounds.bottom - bounds.top : Nat) : ℚ) *
                     (ops.start_pos e).2 - ((es.sprite.height * 1 : Nat) : ℚ) / 2) }
                 rot := es.rot
                 sprite := es.sprite
                 entity := some e } : EntityState E) bounds = some b :=
          ⟨_, rfl⟩
        obtain ⟨b, hb⟩ := hw
        rw [hb] at h
        cases b with
        | false => cases h
        | true =>
            cases h
            rfl

/-- A successful `set_starting_positions` leaves every record with a resolved
position. -/
theorem set_starting_positions_posOk {E : Type} (ops : Ops E) (bounds : Rect)
    (st0 : List (EntityState E)) :
    ∀ st, set_starting_positions ops bounds st0 = StartRes.ok st → PosOk st := by
  induction st0 with
  | nil =>
      intro st h
      cases h
      intro es hm
      cases hm
  | cons es0 rest ih =>
      intro st h
      unfold set_starting_positions at h
      cases hres : resolveOne ops bounds es0 with
      | panicked => rw [hres] at h; cases h
      | err e => rw [hres] at h; cases h
      | ok es' =>
          rw [hres] at h
          cases hrest : set_starting_positions ops bounds rest with
          | panicked => rw [hrest] at h; cases h
          | err e => rw [hrest] at h; cases h
          | ok rest' =>
              rw [hrest] at h
              cases h
              intro es hm
              cases hm with
              | head => exact resolveOne_posOk ops bounds es0 _ hres
              | tail _ hm' => exact ih rest' hrest _ hm'

/-- `render_entities` reaches every record (its only panic is the position
`expect`), so it succeeds when every position is resolved. -/
theorem render_entities_isSome {E : Type} (st : List (EntityState E))
    (hpos : PosOk st) : (render_entities st).isSome := by
  induction st with
  | nil => rfl
  | cons es rest ih =>
      obtain ⟨p, hp⟩ := Option.isSome_iff_exists.mp
        (hpos es (List.mem_cons_self ..))
      have h2 := ih (fun e hm => hpos e (List.mem_cons_of_mem _ hm))
      obtain ⟨r, hr⟩ := Option.isSome_iff_exists.mp h2
      have hc : ∃ c, renderEntity es = some c := by
        unfold renderEntity
        rw [hp]
        exact ⟨_, rfl⟩
      obtain ⟨c, hc'⟩ := hc
      simp only [render_entities, hc', hr]
      rfl

/-- C10: after a successful `set_starting_positions` every record has a
resolved (`some`) position; `update_entities` succeeds (the position unwraps
cannot panic) on any store of resolved positions and keeps every surviving
position resolved; and `render_entities` succeeds (its position expect cannot
panic) on any store of resolved positions — it takes the store immutably and
never writes a position at all. -/
theorem positions_stay_resolved {E : Type} (ops : Ops E) (bounds : Rect)
    (input : Input) (st0 st : List (EntityState E))
    (hok : set_starting_positions ops bounds st0 = StartRes.ok st) :
    (∀ es ∈ st, es.pos.isSome) ∧
    (∀ st1 : List (EntityState E), (∀ es ∈ st1, es.pos.isSome) →
       ∃ out tr, update_entities ops bounds input st1 = some (out, tr) ∧
         ∀ es ∈ out, es.pos.isSome) ∧
    (∀ st1 : List (EntityState E), (∀ es ∈ st1, es.pos.isSome) →
       (render_entities st1).isSome) := by
  refine ⟨set_starting_positions_posOk ops bounds st0 st hok, ?_,
    fun st1 h => render_entities_isSome st1 h⟩
  intro st1 h1
  obtain ⟨mid, out, tr, _, _, hpos', _, hout, heq⟩ :=
    update_entities_spec ops bounds input st1 h1
  refine ⟨out, tr, heq, ?_⟩
  intro es hm
  rw [hout] at hm
  exact hpos' es (List.mem_filter.mp hm).1

section RatEval

attribute [local semireducible] Rat.mul Rat.sub Rat.add Rat.inv

/-- C6: for an unresolved record, `set_starting_positions`'s loop body places
it at (bounds_width × start_x − sprite_width × X_SCALE ∕ 2,
bounds_height × start_y − sprite_height × Y_SCALE ∕ 2), truncated to
integers, and returns `OutOfBounds` exactly when the resolved placement fails
the bounds check; concretely, on the 40×20 canvas an entity with a 4×4 sprite
and start_pos (1∕2, 1∕2) resolves to position (16, 8). -/
theorem resolve_starting_positions_formula {E : Type} (ops : Ops E)
    (bounds : Rect) (es : EntityState E) (e : E)
    (hpos : es.pos = none) (he : es.entity = some e) :
    (∃ pos : Position,
       pos.x = ratTrunc ((bounds.width : ℚ) * (ops.start_pos e).1 -
         ((es.sprite.width : ℚ) * 2) / 2) ∧
       pos.y = ratTrunc ((bounds.height : ℚ) * (ops.start_pos e).2 -
         ((es.sprite.height : ℚ) * 1) / 2) ∧
       resolveOne ops bounds es =
         (if EntityState.within_bounds { es with pos := some pos } bounds
             = some true
          then StartRes.ok { es with pos := some pos }
          else StartRes.err GameError.OutOfBounds)) ∧
    set_starting_positions passOps bounds4020 [startRec] =
      StartRes.ok [{ startRec with pos := some { x := 16, y := 8 } }] := by
  constructor
  · refine ⟨{
        x := ratTrunc (((bounds.right - bounds.left : Nat) : ℚ) *
          (ops.start_pos e).1 - ((es.sprite.width * 2 : Nat) : ℚ) / 2)
        y := ratTrunc (((bounds.bottom - bounds.top : Nat) : ℚ) *
          (ops.start_pos e).2 - ((es.sprite.height * 1 : Nat) : ℚ) / 2) },
      ?_, ?_, ?_⟩
    · have h1 : bounds.right - bounds.left = bounds.width := by
        simp [Rect.right, Rect.left]
      rw [h1]
      push_cast
      ring_nf
    · have h1 : bounds.bottom - bounds.top = bounds.height := by
        simp [Rect.bottom, Rect.top]
      rw [h1]
      push_cast
      ring_nf
    · unfold resolveOne
      rw [hpos]
      rw [if_neg (by simp)]
      rw [he]
      dsimp only
      obtain ⟨b, hb⟩ : ∃ b,
          EntityState.within_bounds
            ({ pos := some {
                 x := ratTrunc (((bounds.right - bounds.left : Nat) : ℚ) *
                   (ops.start_pos e).1 - ((es.sprite.width * 2 : Nat) : ℚ) / 2)
                 y := ratTrunc (((bounds.bottom - bounds.top : Nat) : ℚ) *
                   (ops.start_pos e).2 - ((es.sprite.height * 1 : Nat) : ℚ) / 2) }
               rot := es.rot
               sprite := es.sprite
               entity := some e } : EntityState E) bounds = some b :=
        ⟨_, rfl⟩
      rw [hb]
      cases b with
      | true => rw [if_pos rfl]
      | false =>
          rw [if_neg (by simp)]
  · decide

/-- C6 witness: the unresolved single record with the centred start position
instantiates the formula on the 40×20 canvas. -/
theorem resolve_starting_positions_formula_witness :
    startRec.pos = none ∧ startRec.entity = some () ∧
    ((∃ pos : Position,
       pos.x = ratTrunc ((bounds4020.width : ℚ) * (passOps.start_pos ()).1 -
         ((startRec.sprite.width : ℚ) * 2) / 2) ∧
       pos.y = ratTrunc ((bounds4020.height : ℚ) * (passOps.start_pos ()).2 -
         ((startRec.sprite.height : ℚ) * 1) / 2) ∧
       resolveOne passOps bounds4020 startRec =
         (if EntityState.within_bounds { startRec with pos := some pos }
              bounds4020 = some true
          then StartRes.ok { startRec with pos := some pos }
          else StartRes.err GameError.OutOfBounds)) ∧
     set_starting_positions passOps bounds4020 [startRec] =
       StartRes.ok [{ startRec with pos := some { x := 16, y := 8 } }]) :=
  ⟨rfl, rfl,
    resolve_starting_positions_formula passOps bounds4020 startRec () rfl rfl⟩

/-- C10 witness: the resolved store from the concrete starting-position run
instantiates the no-panic/preservation properties. -/
theorem positions_stay_resolved_witness :
    set_starting_positions passOps bounds4020 [startRec] =
      StartRes.ok [{ startRec with pos := some { x := 16, y := 8 } }] ∧
    ((∀ es ∈ [{ startRec with pos := some { x := 16, y := 8 } }],
        es.pos.isSome) ∧
     (∀ st1 : List (EntityState Unit), (∀ es ∈ st1, es.pos.isSome) →
        ∃ out tr,
          update_entities passOps bounds4020 Input.None st1 = some (out, tr) ∧
          ∀ es ∈ out, es.pos.isSome) ∧
     (∀ st1 : List (EntityState Unit), (∀ es ∈ st1, es.pos.isSome) →
        (render_entities st1).isSome)) :=
  ⟨by decide,
    positions_stay_resolved passOps bounds4020 Input.None [startRec] _
      (by decide)⟩

end RatEval

/-- One collide iteration emits either nothing (store unchanged) or exactly
the notification `collide i j`, in which case record `i`'s entity is present
afterwards. -/
theorem collideStep_trace {E : Type} (ops : Ops E) (i j : Nat)
    (st st' : List (EntityState E)) (tr : List Event)
    (h : collideStep ops i j st = some (st', tr)) :
    (tr = [] ∧ st' = st) ∨
    (tr = [Event.collide i j] ∧
      ∃ si', st'[i]? = some si' ∧ si'.entity.isSome) := by
  unfold collideStep at h
  cases hsi : st[i]? with
  | none => rw [hsi] at h; cases h
  | some si =>
      cases hsj : st[j]? with
      | none => rw [hsi, hsj] at h; cases h
      | some sj =>
          rw [hsi, hsj] at h
          dsimp only at h
          cases hov : si.overlaps sj with
          | none => rw [hov] at h; cases h
          | some ov =>
              rw [hov] at h
              dsimp only at h
              cases ov with
              | false =>
                  rw [if_neg (by simp)] at h
                  cases h
                  exact Or.inl ⟨rfl, rfl⟩
              | true =>
                  rw [if_pos rfl] at h
                  cases hei : si.entity with
                  | none => rw [hei] at h; dsimp only at h; cases h
                            exact Or.inl ⟨rfl, rfl⟩
                  | some ei =>
                      cases hej : sj.entity with
                      | none =>
                          rw [hei, hej] at h
                          dsimp only at h
                          cases h
                          exact Or.inl ⟨rfl, rfl⟩
                      | some ej =>
                          rw [hei, hej] at h
                          dsimp only at h
                          cases h
                          refine Or.inr ⟨rfl, ?_⟩
                          have hjlen : j < st.length :=
                            (List.getElem?_eq_some.mp hsj).1
                          have hilen : i < st.length :=
                            (List.getElem?_eq_some.mp hsi).1
                          by_cases hji : j = i
                          · subst hji
                            exact ⟨{ sj with
                                entity := some (ops.collision ei ej).2 },
                              List.getElem?_set_self (by simpa using hjlen), rfl⟩
                          · refine ⟨{ si with
                                entity := some (ops.collision ei ej).1 },
                              ?_, rfl⟩
                            rw [List.getElem?_set_ne hji]
                            exact List.getElem?_set_self hilen

/-- One collide iteration never clears an entity field. -/
theorem collideStep_entity_mono {E : Type} (ops : Ops E) (i j k : Nat)
    (st st' : List (EntityState E)) (tr : List Event)
    (h : collideStep ops i j st = some (st', tr))
    (hk : ∃ sk, st[k]? = some sk ∧ sk.entity.isSome) :
    ∃ sk', st'[k]? = some sk' ∧ sk'.entity.isSome := by
  unfold collideStep at h
  cases hsi : st[i]? with
  | none => rw [hsi] at h; cases h
  | some si =>
      cases hsj : st[j]? with
      | none => rw [hsi, hsj] at h; cases h
      | some sj =>
          rw [hsi, hsj] at h
          dsimp only at h
          cases hov : si.overlaps sj with
          | none => rw [hov] at h; cases h
          | some ov =>
              rw [hov] at h
              dsimp only at h
              cases ov with
              | false =>
                  rw [if_neg (by simp)] at h
                  cases h
                  exact hk
              | true =>
                  rw [if_pos rfl] at h
                  cases hei : si.entity with
                  | none => rw [hei] at h; dsimp only at h; cases h; exact hk
                  | some ei =>
                      cases hej : sj.entity with
                      | none =>
                          rw [hei, hej] at h
                          dsimp only at h
                          cases h
                          exact hk
                      | some ej =>
                          rw [hei, hej] at h
                          dsimp only at h
                          cases h
                          obtain ⟨sk, hks, hke⟩ := hk
                          have hjlen : j < st.length :=
                            (List.getElem?_eq_some.mp hsj).1
                          have hilen : i < st.length :=
                            (List.getElem?_eq_some.mp hsi).1
                          by_cases hjk : j = k
                          · subst hjk
                            exact ⟨{ sj with
                                entity := some (ops.collision ei ej).2 },
                              List.getElem?_set_self (by simpa using hjlen), rfl⟩
                          · rw [List.getElem?_set_ne hjk]
                            by_cases hik : i = k
                            · subst hik
                              exact ⟨{ si with
                                  entity := some (ops.collision ei ej).1 },
                                List.getElem?_set_self hilen, rfl⟩
                            · rw [List.getElem?_set_ne hik]
                              exact ⟨sk, hks, hke⟩

/-- The inner loop never clears an entity field. -/
theorem collideLoop_entity_mono {E : Type} (ops : Ops E) (i : Nat)
    (js : List Nat) (k : Nat) :
    ∀ (st st' : List (EntityState E)) (tr : List Event),
      collideLoop ops i js st = some (st', tr) →
      (∃ sk, st[k]? = some sk ∧ sk.entity.isSome) →
      ∃ sk', st'[k]? = some sk' ∧ sk'.entity.isSome := by
  induction js with
  | nil =>
      intro st st' tr h hk
      cases h
      exact hk
  | cons j rest ih =>
      intro st st' tr h hk
      unfold collideLoop at h
      cases hstep : collideStep ops i j st with
      | none => rw [hstep] at h; cases h
      | some p1 =>
          rcases p1 with ⟨st1, tr1⟩
          rw [hstep] at h
          dsimp only at h
          cases hloop : collideLoop ops i rest st1 with
          | none => rw [hloop] at h; cases h
          | some p2 =>
              rcases p2 with ⟨st2, tr2⟩
              rw [hloop] at h
              dsimp only at h
              cases h
              exact ih st1 _ tr2 hloop
                (collideStep_entity_mono ops i j k st st1 tr1 hstep hk)

/-- Every event the inner loop for record `i` emits is a notification *to*
record `i`, and once one was emitted, record `i`'s entity is present in the
loop's final store. -/
theorem collideLoop_trace {E : Type} (ops : Ops E) (i : Nat) (js : List Nat) :
    ∀ (st st' : List (EntityState E)) (tr : List Event),
      collideLoop ops i js st = some (st', tr) →
      (∀ e ∈ tr, ∃ j, e = Event.collide i j) ∧
      (∀ j, Event.collide i j ∈ tr →
        ∃ si', st'[i]? = some si' ∧ si'.entity.isSome) := by
  induction js with
  | nil =>
      intro st st' tr h
      cases h
      exact ⟨fun e he => absurd he (List.not_mem_nil e),
        fun j hj => absurd hj (List.not_mem_nil _)⟩
  | cons j rest ih =>
      intro st st' tr h
      unfold collideLoop at h
      cases hstep : collideStep ops i j st with
      | none => rw [hstep] at h; cases h
      | some p1 =>
          rcases p1 with ⟨st1, tr1⟩
          rw [hstep] at h
          dsimp only at h
          cases hloop : collideLoop ops i rest st1 with
          | none => rw [hloop] at h; cases h
          | some p2 =>
              rcases p2 with ⟨st2, tr2⟩
              rw [hloop] at h
              dsimp only at h
              cases h
              obtain ⟨ih1, ih2⟩ := ih st1 _ tr2 hloop
              rcases collideStep_trace ops i j st st1 tr1 hstep with
                ⟨h1, h2⟩ | ⟨h1, h2⟩
              · subst h1
                subst h2
                exact ⟨fun e he => ih1 e (by simpa using he),
                  fun j' hj' => ih2 j' (by simpa using hj')⟩
              · subst h1
                constructor
                · intro e he
                  rcases List.mem_append.mp he with hm | hm
                  · exact ⟨j, List.mem_singleton.mp hm⟩
                  · exact ih1 e hm
                · intro j' hj'
                  rcases List.mem_append.mp hj' with hm | hm
                  · exact collideLoop_entity_mono ops i rest i st1 _ tr2
                      hloop h2
                  · exact ih2 j' hm

/-- The integrator step emits no events or exactly one `updated i` event. -/
theorem updateStep_trace_shape {E : Type} (ops : Ops E) (bounds : Rect)
    (input : Input) (i : Nat) (st st' : List (EntityState E))
    (tr : List Event)
    (h : updateStep ops bounds input i st = some (st', tr)) :
    tr = [] ∨ tr = [Event.updated i] := by
  unfold updateStep at h
  cases hsi : st[i]? with
  | none => rw [hsi] at h; cases h
  | some si =>
      rw [hsi] at h
      dsimp only at h
      cases he : si.entity with
      | none => rw [he] at h; dsimp only at h; cases h; exact Or.inl rfl
      | some e =>
          rw [he] at h
          dsimp only at h
          rcases hu : ops.update e input with ⟨upd, e'⟩
          rw [hu] at h
          dsimp only at h
          cases upd with
          | None => cases h; exact Or.inr rfl
          | Destroy => cases h; exact Or.inr rfl
          | Action step rotate =>
              cases hp : si.pos with
              | none => rw [hp] at h; dsimp only at h; cases h
              | some p =>
                  rw [hp] at h
                  dsimp only [EntityState.within_bounds] at h
                  cases h
                  exact Or.inr rfl

/-- A live record's integrator step emits exactly its `updated i` event. -/
theorem updateStep_live_trace {E : Type} (ops : Ops E) (bounds : Rect)
    (input : Input) (i : Nat) (st st' : List (EntityState E))
    (tr : List Event)
    (h : updateStep ops bounds input i st = some (st', tr))
    (si : EntityState E) (hsi : st[i]? = some si)
    (hent : si.entity.isSome) : tr = [Event.updated i] := by
  obtain ⟨e, he⟩ := Option.isSome_iff_exists.mp hent
  unfold updateStep at h
  rw [hsi] at h
  dsimp only at h
  rw [he] at h
  dsimp only at h
  rcases hu : ops.update e input with ⟨upd, e'⟩
  rw [hu] at h
  dsimp only at h
  cases upd with
  | None => cases h; rfl
  | Destroy => cases h; rfl
  | Action step rotate =>
      cases hp : si.pos with
      | none => rw [hp] at h; dsimp only at h; cases h
      | some p =>
          rw [hp] at h
          dsimp only [EntityState.within_bounds] at h
          cases h
          rfl

/-- In any trace of the outer pass, a collision notification delivered to
record `i` precedes record `i`'s own `update` event. -/
theorem runPass_trace {E : Type} (ops : Ops E) (bounds : Rect)
    (input : Input) (n : Nat) (is : List Nat) :
    ∀ (st st' : List (EntityState E)) (tr : List Event),
      runPass ops bounds input n is st = some (st', tr) →
      ∀ i j, Event.collide i j ∈ tr →
        ∃ l1 l2, tr = l1 ++ Event.updated i :: l2 ∧ Event.collide i j ∈ l1 := by
  induction is with
  | nil =>
      intro st st' tr h i j hmem
      cases h
      cases hmem
  | cons a rest ih =>
      intro st st' tr h i j hmem
      unfold runPass at h
      cases hloop : collideLoop ops a
          ((List.range n).filter (fun j' => j' ≠ a)) st with
      | none => rw [hloop] at h; cases h
      | some p1 =>
          rcases p1 with ⟨st1, tr1⟩
          rw [hloop] at h
          dsimp only at h
          cases hstep : updateStep ops bounds input a st1 with
          | none => rw [hstep] at h; cases h
          | some p2 =>
              rcases p2 with ⟨st2, tr2⟩
              rw [hstep] at h
              dsimp only at h
              cases hrest : runPass ops bounds input n rest st2 with
              | none => rw [hrest] at h; cases h
              | some p3 =>
                  rcases p3 with ⟨st3, tr3⟩
                  rw [hrest] at h
                  dsimp only at h
                  cases h
                  obtain ⟨hall, hent⟩ := collideLoop_trace ops a _ st st1 tr1 hloop
                  rcases List.mem_append.mp hmem with hm12 | hm3
                  · rcases List.mem_append.mp hm12 with hm1 | hm2
                    · obtain ⟨j', hj'⟩ := hall _ hm1
                      have hia : i = a := by
                        cases hj'
                        rfl
                      subst hia
                      obtain ⟨si1, hsi1, hsome1⟩ := hent j (by
                        have : Event.collide i j' = Event.collide i j := hj'.symm
                        cases this
                        exact hm1)
                      have htr2 := updateStep_live_trace ops bounds input i st1
                        st2 tr2 hstep si1 hsi1 hsome1
                      subst htr2
                      refine ⟨tr1, tr3, ?_, ?_⟩
                      · simp
                      · have : Event.collide i j' = Event.collide i j := hj'.symm
                        cases this
                        exact hm1
                    · rcases updateStep_trace_shape ops bounds input a st1 st2
                          tr2 hstep with h0 | h0 <;> subst h0
                      · cases hm2
                      · exact Event.noConfusion (List.mem_singleton.mp hm2)
                  · obtain ⟨l1, l2, heq, hm⟩ := ih st2 _ tr3 hrest i j hm3
                    refine ⟨tr1 ++ tr2 ++ l1, l2, ?_, ?_⟩
                    · rw [heq]
                      simp
                    · simp [hm]

/-- C3 amended: within a tick, each entity's own incoming collision
notifications are delivered immediately before its own `update`: every
`collide i j` notification in the pass trace precedes `updated i`.  The
reciprocal notification `collide j i` to a later-indexed participant is
delivered in that participant's own iteration, which can fall *after*
`updated i` (refuted as stated by `collision_order_cex`). -/
theorem collision_precedes_own_update {E : Type} (ops : Ops E) (bounds : Rect)
    (input : Input) (st out : List (EntityState E)) (tr : List Event)
    (h : update_entities ops bounds input st = some (out, tr))
    (i j : Nat) (hmem : Event.collide i j ∈ tr) :
    ∃ l1 l2, tr = l1 ++ Event.updated i :: l2 ∧ Event.collide i j ∈ l1 := by
  unfold update_entities at h
  cases hrun : runPass ops bounds input st.length (List.range st.length) st with
  | none => rw [hrun] at h; cases h
  | some p =>
      rcases p with ⟨st1, tr1⟩
      rw [hrun] at h
      dsimp only at h
      cases h
      exact runPass_trace ops bounds input st.length (List.range st.length)
        st st1 tr hrun i j hmem

/-- C3 counterexample: two overlapping inert records.  The pass trace is
collide 0 1, updated 0, collide 1 0, updated 1: record 1's notification about
record 0 is delivered only *after* record 0's update, so the claim that both
notifications precede both updates fails on this run. -/
theorem collision_order_cex :
    (update_entities passOps bounds4020 Input.None [passA, passB]).map
      Prod.snd = some [Event.collide 0 1, Event.updated 0,
        Event.collide 1 0, Event.updated 1] ∧
    ¬ spec_notifiedBeforeUpdates [Event.collide 0 1, Event.updated 0,
        Event.collide 1 0, Event.updated 1] := by
  constructor
  · decide
  · intro hcl
    exact absurd (hcl 1 0 (by decide)).2 (by decide)

/-- C3 amended, witness: the same two-record run instantiates the
precedence property for the notification collide 0 1. -/
theorem collision_precedes_own_update_witness :
    update_entities passOps bounds4020 Input.None [passA, passB] =
      some ([passA, passB], [Event.collide 0 1, Event.updated 0,
        Event.collide 1 0, Event.updated 1]) ∧
    Event.collide 0 1 ∈ ([Event.collide 0 1, Event.updated 0,
      Event.collide 1 0, Event.updated 1] : List Event) ∧
    ∃ l1 l2,
      ([Event.collide 0 1, Event.updated 0, Event.collide 1 0,
        Event.updated 1] : List Event) = l1 ++ Event.updated 0 :: l2 ∧
      Event.collide 0 1 ∈ l1 :=
  ⟨by decide, by decide,
    collision_precedes_own_update passOps bounds4020 Input.None
      [passA, passB] [passA, passB] _ (by decide) 0 1 (by decide)⟩

/-- C2 counterexample: two 4×4-sprite records at (0, 0) and (6, 0).  Under the
claim's full-extent strict-overlap boxes they collide (0 + 4·2 > 6), but
`EntityState::overlaps` reports no collision (0 + (4−2)·2 = 4 < 6): the code's
boxes use width−2/height−2 extents. -/
theorem overlaps_full_extent_cex :
    spec_overlaps ovA ovB = some true ∧
    EntityState.overlaps ovA ovB = some false := by
  decide

/-- C2 amended: for records with resolved positions and sprites at least 2
wide and 2 high, `overlaps` reports a collision iff the *closed* axis-aligned
boxes anchored at the positions with extents `(width − 2) · X_SCALE` and
`(height − 2) · Y_SCALE` share at least one point — touching edges or corners
therefore DO count as overlapping. -/
theorem overlaps_reduced_boxes {E : Type} (a b : EntityState E)
    (pa pb : Position) (ha : a.pos = some pa) (hb : b.pos = some pb)
    (hwa : 2 ≤ a.sprite.width) (hha : 2 ≤ a.sprite.height)
    (hwb : 2 ≤ b.sprite.width) (hhb : 2 ≤ b.sprite.height) :
    a.overlaps b = some true ↔
      ∃ q : Position,
        (pa.x ≤ q.x ∧ q.x ≤ pa.x + ((a.sprite.width : Int) - 2) * X_SCALE ∧
         pa.y ≤ q.y ∧ q.y ≤ pa.y + ((a.sprite.height : Int) - 2) * Y_SCALE) ∧
        (pb.x ≤ q.x ∧ q.x ≤ pb.x + ((b.sprite.width : Int) - 2) * X_SCALE ∧
         pb.y ≤ q.y ∧ q.y ≤ pb.y + ((b.sprite.height : Int) - 2) * Y_SCALE) := by
  unfold EntityState.overlaps
  rw [ha, hb]
  simp only [Option.some.injEq, decide_eq_true_eq, X_SCALE, Y_SCALE]
  constructor
  · intro h
    refine ⟨{ x := max pa.x pb.x, y := max pa.y pb.y }, ?_, ?_⟩ <;>
      simp only [] <;> omega
  · rintro ⟨q, hq1, hq2⟩
    omega

/-- C2 amended, witness: the records at (10, 10) and (12, 10) instantiate the
equivalence, and `overlaps` indeed reports their collision. -/
theorem overlaps_reduced_boxes_witness :
    passA.pos = some { x := 10, y := 10 } ∧
    passB.pos = some { x := 12, y := 10 } ∧
    2 ≤ passA.sprite.width ∧ 2 ≤ passA.sprite.height ∧
    2 ≤ passB.sprite.width ∧ 2 ≤ passB.sprite.height ∧
    (passA.overlaps passB = some true ↔
      ∃ q : Position,
        ((10 : Int) ≤ q.x ∧ q.x ≤ 10 + ((4 : Int) - 2) * X_SCALE ∧
         (10 : Int) ≤ q.y ∧ q.y ≤ 10 + ((4 : Int) - 2) * Y_SCALE) ∧
        ((12 : Int) ≤ q.x ∧ q.x ≤ 12 + ((4 : Int) - 2) * X_SCALE ∧
         (10 : Int) ≤ q.y ∧ q.y ≤ 10 + ((4 : Int) - 2) * Y_SCALE)) :=
  ⟨rfl, rfl, by decide, by decide, by decide, by decide,
    overlaps_reduced_boxes passA passB _ _ rfl rfl (by decide) (by decide)
      (by decide) (by decide)⟩

end Tui
